import Mathlib

/-! Verification of the Reddit scraper (`src/main.py`) against its
natural-language specification.

The program fetches posts and comments from Reddit via `praw`, reshapes
them into pandas DataFrames, and offers them as CSV downloads through a
Streamlit interface.  This file is a shallow embedding of that logic:

* a pandas DataFrame is a list of column names plus rows of cells
  (`pd.DataFrame()` is the fully empty frame `⟨[], []⟩`);
* the remote Reddit API is an `Except`-valued oracle passed in as an
  argument: `Except.error` models any exception raised by the `praw`
  calls inside the `try` blocks of `get_subreddit_posts` and
  `get_post_by_url`;
* Streamlit's `st.cache_data(ttl=3600)` memoization is made explicit as
  a cache value threaded through `get_subreddit_posts_cached`; per the
  decorator semantics, a parameter whose name begins with an underscore
  (`_reddit`) is excluded from the cache key;
* `df.to_csv(index=False)` (header row, one line per record, minimal
  quoting: a field containing a delimiter, quote char, or line break is
  wrapped in double quotes with inner quotes doubled, every line
  terminated by a newline) is modelled over `List Char`, together with a
  CSV reader used to state the round-trip property.  `comment.created_utc`
  is a numeric timestamp; it is modelled as an integer since no claim
  depends on its fractional part.
-/

/-- A cell of a DataFrame as this program builds them: either a string
or an integer value. -/
inductive Cell where
  | str (s : String)
  | int (n : Int)
deriving DecidableEq, Repr

/-- A pandas DataFrame: column names plus rows of cells.  The
column-less empty frame `pd.DataFrame()` is `⟨[], []⟩`. -/
structure DF where
  cols : List String
  rows : List (List Cell)
deriving DecidableEq, Repr

/-- The `praw.Reddit(...)` session handle built by `init_reddit`. -/
structure Session where
  clientId : String
  clientSecret : String
  userAgent : String
deriving DecidableEq, Repr

/-- One submission as read by the fetch functions (fields accessed on a
`praw` submission object). -/
structure Post where
  title : String
  selftext : String
  id : String
  score : Int
  num_comments : Int
  url : String
deriving DecidableEq, Repr

/-- One comment as read by `get_post_by_url`.  `author` is `none` when
the account no longer exists (`comment.author` is Python `None`). -/
structure Comment where
  body : String
  score : Int
  author : Option String
  created_utc : Int
deriving DecidableEq, Repr

/-- Column names of the posts table, in the order the `posts_dict`
literal of `get_subreddit_posts` declares them. -/
def postColumns : List String :=
  ["Title", "Post Text", "ID", "Score", "Total Comments", "Post URL"]

/-- The six cells appended for one post, in column order. -/
def postRow (p : Post) : List Cell :=
  [.str p.title, .str p.selftext, .str p.id, .int p.score,
   .int p.num_comments, .str p.url]

/-- Body of `get_subreddit_posts` (src/main.py lines 25-48).  The
`fetched` argument is the outcome of the remote iteration inside the
`try` block: `Except.error` is any raised exception, which the function
catches, turning it into the fully empty `pd.DataFrame()`; on success
one row per yielded post, in yield order. -/
def get_subreddit_posts (fetched : Except String (List Post)) : DF :=
  match fetched with
  | .ok posts => ⟨postColumns, posts.map postRow⟩
  | .error _ => ⟨[], []⟩

/-- The `str(comment.author)` conversion on line 71: Python renders
`None` as the string literal `"None"`. -/
def strOfAuthor : Option String → String
  | none => "None"
  | some a => a

/-- Column names of the comments table, in the order the `comment_data`
dict literal declares them. -/
def commentColumns : List String :=
  ["Comment Text", "Score", "Author", "Created UTC"]

/-- The `comment_data` dict built for one comment (lines 68-73): an
association list from attribute name to cell value. -/
def commentRecord (c : Comment) : List (String × Cell) :=
  [("Comment Text", .str c.body), ("Score", .int c.score),
   ("Author", .str (strOfAuthor c.author)), ("Created UTC", .int c.created_utc)]

/-- The cells of one comment row, in column order. -/
def commentRow (c : Comment) : List Cell := (commentRecord c).map Prod.snd

/-- Body of `get_post_by_url` (src/main.py lines 51-79).  `fetched` is
the outcome of the remote work inside the `try` block: the submission's
fields plus its flattened comment list (after `replace_more`).  On any
exception the pair of fully empty `pd.DataFrame()`s is returned.  On
success, `pd.DataFrame([post_data])` is a one-row frame, and
`pd.DataFrame(post_comments)` has the comment columns when the list is
nonempty but is column-less when the list is empty. -/
def get_post_by_url (fetched : Except String (Post × List Comment)) : DF × DF :=
  match fetched with
  | .ok (submission, comments) =>
      (⟨postColumns, [postRow submission]⟩,
       if comments.isEmpty then ⟨[], []⟩
       else ⟨commentColumns, comments.map commentRow⟩)
  | .error _ => (⟨[], []⟩, ⟨[], []⟩)

/-- Failure of credential resolution: the named secret is missing from
the secret store (`st.secrets[key]` raising on an absent key). -/
inductive ConfigError where
  | missingSecret (key : String)
deriving DecidableEq, Repr

/-- `st.secrets[key]`: returns the stored value or raises when the key
is absent from the store. -/
def secretStoreGet (secrets : String → Option String) (key : String) :
    Except ConfigError String :=
  match secrets key with
  | some v => .ok v
  | none => .error (.missingSecret key)

/-- `os.environ.get(key) or st.secrets[key]` (lines 14-16): the
environment value is used when present and truthy (a Python string is
falsy exactly when empty); otherwise the secret store is consulted. -/
def resolveCredential (env secrets : String → Option String) (key : String) :
    Except ConfigError String :=
  match env key with
  | some v => if v = "" then secretStoreGet secrets key else .ok v
  | none => secretStoreGet secrets key

/-- The three secret names read by `init_reddit`. -/
def credentialKeys : List String :=
  ["REDDIT_CLIENT_ID", "REDDIT_CLIENT_SECRET", "REDDIT_USER_AGENT"]

/-- `init_reddit` (lines 12-22): resolves the three credentials and
builds the session; any resolution failure propagates (it is not caught
anywhere, so it is fatal to the run). -/
def init_reddit (env secrets : String → Option String) :
    Except ConfigError Session := do
  let cid ← resolveCredential env secrets "REDDIT_CLIENT_ID"
  let cs ← resolveCredential env secrets "REDDIT_CLIENT_SECRET"
  let ua ← resolveCredential env secrets "REDDIT_USER_AGENT"
  return ⟨cid, cs, ua⟩

/-- One entry of the `st.cache_data` cache for `get_subreddit_posts`:
the key is (subreddit name, post limit, time filter) — the `_reddit`
parameter is excluded by the underscore naming convention — together
with the storage time and cached value. -/
structure CacheEntry where
  key : String × Nat × String
  storedAt : Nat
  value : DF
deriving DecidableEq, Repr

/-- Cache lookup with the 1-hour (3600 s) ttl of the decorator: an entry
is served while younger than the ttl. -/
def cacheLookup (cache : List CacheEntry) (k : String × Nat × String)
    (now : Nat) : Option DF :=
  match cache.find? (fun e => e.key = k) with
  | some e => if now < e.storedAt + 3600 then some e.value else none
  | none => none

/-- `get_subreddit_posts` as called through `st.cache_data(ttl=3600)`:
on a fresh key the remote oracle is consulted once and the result
stored; on a live cached key the stored frame is returned with no
remote call.  The last component counts remote calls (0 or 1). -/
def get_subreddit_posts_cached
    (remote : String → Nat → String → Except String (List Post))
    (cache : List CacheEntry) (now : Nat) ( _reddit : Session)
    (subreddit_name : String) (post_limit : Nat) (time_filter : String) :
    DF × List CacheEntry × Nat :=
  match cacheLookup cache (subreddit_name, post_limit, time_filter) now with
  | some df => (df, cache, 0)
  | none =>
      let df := get_subreddit_posts (remote subreddit_name post_limit time_filter)
      (df, ⟨(subreddit_name, post_limit, time_filter), now, df⟩ :: cache, 1)

/-- True when minimal quoting must wrap the field: it contains the
delimiter, the quote character, or a line break (the QUOTE_MINIMAL
policy of `to_csv`). -/
def needsQuote (s : List Char) : Bool :=
  s.any (fun c => c = ',' || c = '"' || c = '\n' || c = '\r')

/-- Double every quote character, as CSV quoting does inside a quoted
field. -/
def escQuotes : List Char → List Char
  | [] => []
  | c :: cs => if c = '"' then '"' :: '"' :: escQuotes cs else c :: escQuotes cs

/-- Render one field with minimal quoting. -/
def encodeField (s : List Char) : List Char :=
  if needsQuote s then '"' :: (escQuotes s ++ ['"']) else s

/-- Render one record: fields joined by the comma delimiter. -/
def encodeRow : List (List Char) → List Char
  | [] => []
  | [f] => encodeField f
  | f :: g :: fs => encodeField f ++ ',' :: encodeRow (g :: fs)

/-- Render a whole table, every line newline-terminated, exactly as
`DataFrame.to_csv` emits its lines. -/
def encodeTable : List (List (List Char)) → List Char
  | [] => []
  | r :: rs => encodeRow r ++ '\n' :: encodeTable rs

/-- Canonical string rendering of a cell in the CSV output (`to_csv`
writes integers in decimal). -/
def cellRepr : Cell → String
  | .str s => s
  | .int n => toString n

/-- The character-list fields of one row. -/
def rowFields (r : List Cell) : List (List Char) :=
  r.map (fun c => (cellRepr c).data)

/-- `df.to_csv(index=False).encode("utf-8")` (lines 115 and 143-144):
header row of the column names, then one line per record.  UTF-8 byte
encoding of the resulting text is injective, so round-trip fidelity is
stated at the character level. -/
def toCsv (df : DF) : List Char :=
  encodeTable ((df.cols.map String.data) :: df.rows.map rowFields)

/-- Read a quoted field body after its opening quote: a doubled quote is
a literal quote character, a lone quote closes the field. -/
def parseQuoted : List Char → Option (List Char × List Char)
  | [] => none
  | c :: rest =>
    if c = '"' then
      match rest with
      | [] => some ([], [])
      | c2 :: rest2 =>
        if c2 = '"' then (parseQuoted rest2).map (fun p => ('"' :: p.1, p.2))
        else some ([], rest)
    else (parseQuoted rest).map (fun p => (c :: p.1, p.2))

/-- Read an unquoted field: everything up to the next delimiter or line
break. -/
def parseUnquoted : List Char → List Char × List Char
  | [] => ([], [])
  | c :: rest =>
    if c = ',' || c = '\n' then ([], c :: rest)
    else
      let p := parseUnquoted rest
      (c :: p.1, p.2)

/-- Read one field, dispatching on a leading quote. -/
def parseField : List Char → Option (List Char × List Char)
  | [] => some ([], [])
  | c :: rest =>
    if c = '"' then parseQuoted rest else some (parseUnquoted (c :: rest))

/-- Read one record: comma-separated fields up to a line break or the
end of input.  `fuel` bounds the number of fields. -/
def parseRecord : Nat → List Char → Option (List (List Char) × List Char)
  | 0, _ => none
  | fuel + 1, input =>
    match parseField input with
    | none => none
    | some (f, rest) =>
      match rest with
      | [] => some ([f], [])
      | c :: rest2 =>
        if c = ',' then (parseRecord fuel rest2).map (fun p => (f :: p.1, p.2))
        else if c = '\n' then some ([f], rest2)
        else none

/-- Read newline-terminated records until the input is exhausted.
`fuel` bounds the number of records; the length of the remaining input
plus one bounds the field count of the next record. -/
def parseRecords : Nat → List Char → Option (List (List (List Char)))
  | 0, _ => none
  | _ + 1, [] => some []
  | fuel + 1, c :: input =>
    match parseRecord ((c :: input).length + 1) (c :: input) with
    | none => none
    | some (r, rest) => (parseRecords fuel rest).map (fun rs => r :: rs)

/-- Parse CSV text back into its records. -/
def parseCSV (s : List Char) : Option (List (List (List Char))) :=
  parseRecords (s.length + 1) s

/-- A concrete two-column table whose cells contain a delimiter, a line
break, a doubled quote, and a negative integer, exercising the quoting
rules of the CSV export. -/
def csvSample : DF :=
  ⟨["A", "B"],
   [[Cell.str "x,y", Cell.str "line1\nline2"],
    [Cell.int (-3), Cell.str "has \"quote\" inside"]]⟩

/-- C1, counterexample: on a remote failure the fetch operations return
the column-less `pd.DataFrame()`, so the resulting empty tables do not
carry the data-model columns the claim requires. -/
theorem fetch_failure_columns_missing :
    ¬ ((get_subreddit_posts (.error "network error")).cols = postColumns ∧
       (get_post_by_url (.error "network error")).1.cols = postColumns ∧
       (get_post_by_url (.error "network error")).2.cols = commentColumns) := by
  decide

/-- C1 (amended): on any remote failure `get_subreddit_posts` returns
the fully empty frame (zero rows and zero columns) and `get_post_by_url`
returns a pair of fully empty frames; being total functions into `DF`,
they propagate no exception. -/
theorem fetch_failure_empty_tables (e : String) :
    get_subreddit_posts (.error e) = ⟨[], []⟩ ∧
    get_post_by_url (.error e) = (⟨[], []⟩, ⟨[], []⟩) :=
  ⟨rfl, rfl⟩

/-- C3: for any valid limit and time window, when the remote iteration
yields at most `post_limit` posts, the returned table has at most
`post_limit` rows. -/
theorem get_subreddit_posts_row_count_le_limit
    (posts : List Post) (post_limit : Nat) (time_filter : String)
    (hlo : 1 ≤ post_limit) (hhi : post_limit ≤ 100)
    (htf : time_filter ∈ ["day", "week", "month", "year", "all"])
    (hlen : posts.length ≤ post_limit) :
    (get_subreddit_posts (.ok posts)).rows.length ≤ post_limit := by
  simpa [get_subreddit_posts] using hlen

/-- C3 witness: the bound at limit 5, window "week", with three posts. -/
theorem get_subreddit_posts_row_count_le_limit_witness :
    (get_subreddit_posts (.ok [⟨"a", "b", "c", 1, 2, "d"⟩,
      ⟨"e", "f", "g", 3, 4, "h"⟩, ⟨"i", "j", "k", 5, 6, "l"⟩])).rows.length ≤ 5 :=
  get_subreddit_posts_row_count_le_limit _ 5 "week"
    (by decide) (by decide) (by decide) (by decide)

/-- C4: on a submission whose comment tree is empty the operation
succeeds, with a one-row post table and a zero-row comment table. -/
theorem get_post_by_url_zero_comments (submission : Post) :
    (get_post_by_url (.ok (submission, []))).1.rows.length = 1 ∧
    (get_post_by_url (.ok (submission, []))).2.rows.length = 0 := by
  constructor <;> rfl

/-- C5: a comment whose author no longer exists gets the literal string
rendering of Python `None`, a non-empty placeholder, in the Author
column of its record; the value is a string cell, never a null. -/
theorem deleted_author_placeholder (c : Comment) (h : c.author = none) :
    ("Author", Cell.str "None") ∈ commentRecord c ∧ ("None" : String) ≠ "" := by
  refine ⟨?_, by decide⟩
  simp [commentRecord, h, strOfAuthor]

/-- C5 witness: the placeholder shows up for a concrete deleted-author
comment. -/
theorem deleted_author_placeholder_witness :
    ("Author", Cell.str "None") ∈ commentRecord ⟨"hi", 1, none, 0⟩ ∧
    ("None" : String) ≠ "" :=
  deleted_author_placeholder ⟨"hi", 1, none, 0⟩ rfl

/-- C8: on success the posts table has the declared six columns and
exactly one row per yielded post, in yield order, each row carrying all
six cells. -/
theorem get_subreddit_posts_preserves_order (posts : List Post) :
    (get_subreddit_posts (.ok posts)).cols = postColumns ∧
    (get_subreddit_posts (.ok posts)).rows = posts.map postRow ∧
    ((get_subreddit_posts (.ok posts)).rows.all
      (fun r => r.length == 6)) = true := by
  refine ⟨rfl, rfl, ?_⟩
  simp only [get_subreddit_posts, List.all_eq_true, List.mem_map]
  rintro r ⟨p, hp, rfl⟩
  rfl

/-- C9: every record of the posts table carries exactly one cell per
declared column, and every comment record carries exactly the four
declared attribute names in order — in particular the Author attribute
is present (with its placeholder value) even when the remote author
field is missing. -/
theorem tables_have_uniform_attributes (posts : List Post) (c : Comment) :
    ((get_subreddit_posts (.ok posts)).rows.all
      (fun r => r.length == postColumns.length)) = true ∧
    (commentRecord c).map Prod.fst = commentColumns ∧
    (commentRow c).length = commentColumns.length := by
  refine ⟨?_, rfl, rfl⟩
  simp only [get_subreddit_posts, List.all_eq_true, List.mem_map]
  rintro r ⟨p, hp, rfl⟩
  rfl

/-- C10: an environment variable set to the empty string is falsy in
Python, so resolution falls through to the secret store exactly as if
the variable were absent. -/
theorem empty_env_value_falls_through
    (env secrets : String → Option String) (key : String)
    (h : env key = some "") :
    resolveCredential env secrets key = secretStoreGet secrets key := by
  simp [resolveCredential, h]

/-- C10 witness: with the variable set to the empty string the store's
value is returned. -/
theorem empty_env_value_falls_through_witness :
    resolveCredential (fun _ => some "") (fun _ => some "fromstore")
        "REDDIT_CLIENT_ID"
      = secretStoreGet (fun _ => some "fromstore") "REDDIT_CLIENT_ID" :=
  empty_env_value_falls_through (fun _ => some "") (fun _ => some "fromstore")
    "REDDIT_CLIENT_ID" rfl

/-- C6: credential resolution consults the environment first and the
secret store second for each of the three named secrets, and when any
of the three is absent from both sources `init_reddit` fails with a
configuration error (which nothing catches, so the run aborts). -/
theorem init_reddit_credential_resolution (env secrets : String → Option String) :
    (∀ key v, env key = some v → v ≠ "" →
      resolveCredential env secrets key = .ok v) ∧
    (∀ key, env key = none →
      resolveCredential env secrets key = secretStoreGet secrets key) ∧
    (∀ key, key ∈ credentialKeys → env key = none → secrets key = none →
      ∃ badKey, init_reddit env secrets = .error (.missingSecret badKey)) := by
  refine ⟨?_, ?_, ?_⟩
  · intro key v hv hne
    simp [resolveCredential, hv, hne]
  · intro key hk
    simp [resolveCredential, hk]
  · intro key hk henv hsec
    have hbad : resolveCredential env secrets key = .error (.missingSecret key) := by
      simp [resolveCredential, henv, secretStoreGet, hsec]
    simp only [credentialKeys, List.mem_cons, List.mem_singleton,
      List.not_mem_nil, or_false] at hk
    rcases hk with rfl | rfl | rfl
    · exact ⟨_, by simp only [init_reddit, hbad]; rfl⟩
    · cases h1 : resolveCredential env secrets "REDDIT_CLIENT_ID" with
      | error e => cases e with
        | missingSecret k => exact ⟨k, by simp only [init_reddit, h1]; rfl⟩
      | ok v1 => exact ⟨_, by simp only [init_reddit, h1, hbad]; rfl⟩
    · cases h1 : resolveCredential env secrets "REDDIT_CLIENT_ID" with
      | error e => cases e with
        | missingSecret k => exact ⟨k, by simp only [init_reddit, h1]; rfl⟩
      | ok v1 =>
        cases h2 : resolveCredential env secrets "REDDIT_CLIENT_SECRET" with
        | error e => cases e with
          | missingSecret k => exact ⟨k, by simp only [init_reddit, h1, h2]; rfl⟩
        | ok v2 => exact ⟨_, by simp only [init_reddit, h1, h2, hbad]; rfl⟩

/-- C6 witness: a non-empty environment value is used directly, and with
every source empty the startup fails with a missing-secret error. -/
theorem init_reddit_credential_resolution_witness :
    resolveCredential (fun _ => some "abc") (fun _ => none)
        "REDDIT_CLIENT_ID" = .ok "abc" ∧
    ∃ badKey, init_reddit (fun _ => none) (fun _ => none)
      = .error (.missingSecret badKey) :=
  ⟨(init_reddit_credential_resolution (fun _ => some "abc") (fun _ => none)).1
      "REDDIT_CLIENT_ID" "abc" rfl (by decide),
   (init_reddit_credential_resolution (fun _ => none) (fun _ => none)).2.2
      "REDDIT_CLIENT_ID" (by decide) rfl rfl⟩

/-- C2: two calls with the same (subreddit, limit, window) arguments
within the 1-hour ttl, starting from an empty cache, perform exactly one
remote call in total and return the same frame; the two calls may use
different session handles, since the `_reddit` parameter is not part of
the cache key. -/
theorem get_subreddit_posts_memoized
    (remote : String → Nat → String → Except String (List Post))
    (s1 s2 : Session) (subreddit_name : String) (post_limit : Nat)
    (time_filter : String) (t1 t2 : Nat) (h : t2 < t1 + 3600) :
    (get_subreddit_posts_cached remote [] t1 s1
        subreddit_name post_limit time_filter).2.2 +
      (get_subreddit_posts_cached remote
        (get_subreddit_posts_cached remote [] t1 s1
          subreddit_name post_limit time_filter).2.1
        t2 s2 subreddit_name post_limit time_filter).2.2 ≤ 1 ∧
    (get_subreddit_posts_cached remote
        (get_subreddit_posts_cached remote [] t1 s1
          subreddit_name post_limit time_filter).2.1
        t2 s2 subreddit_name post_limit time_filter).1 =
      (get_subreddit_posts_cached remote [] t1 s1
        subreddit_name post_limit time_filter).1 := by
  simp [get_subreddit_posts_cached, cacheLookup, List.find?, h]

/-- C2 witness: a concrete stub oracle, two distinct sessions, and two
call times half an hour apart. -/
theorem get_subreddit_posts_memoized_witness :
    (get_subreddit_posts_cached (fun _ _ _ => .ok []) [] 0 ⟨"a", "b", "c"⟩
        "testsub" 5 "week").2.2 +
      (get_subreddit_posts_cached (fun _ _ _ => .ok [])
        (get_subreddit_posts_cached (fun _ _ _ => .ok []) [] 0 ⟨"a", "b", "c"⟩
          "testsub" 5 "week").2.1
        1800 ⟨"d", "e", "f"⟩ "testsub" 5 "week").2.2 ≤ 1 ∧
    (get_subreddit_posts_cached (fun _ _ _ => .ok [])
        (get_subreddit_posts_cached (fun _ _ _ => .ok []) [] 0 ⟨"a", "b", "c"⟩
          "testsub" 5 "week").2.1
        1800 ⟨"d", "e", "f"⟩ "testsub" 5 "week").1 =
      (get_subreddit_posts_cached (fun _ _ _ => .ok []) [] 0 ⟨"a", "b", "c"⟩
        "testsub" 5 "week").1 :=
  get_subreddit_posts_memoized (fun _ _ _ => .ok []) ⟨"a", "b", "c"⟩
    ⟨"d", "e", "f"⟩ "testsub" 5 "week" 0 1800 (by decide)

/-- A separator position: the end of the input, a delimiter, or a line
break. -/
def sepStart : List Char → Bool
  | [] => true
  | c :: _ => c = ',' || c = '\n'

/-- Reading an unquoted field consumes exactly the field text and leaves
the separator suffix intact. -/
theorem parseUnquoted_encode (s rest : List Char)
    (hs : ∀ c ∈ s, ¬(c = ',' ∨ c = '\n'))
    (hrest : sepStart rest = true) :
    parseUnquoted (s ++ rest) = (s, rest) := by
  induction s with
  | nil =>
    cases rest with
    | nil => rfl
    | cons c r =>
      simp only [sepStart] at hrest
      simp [parseUnquoted, hrest]
  | cons a s ih =>
    have ha := hs a (by simp)
    push_neg at ha
    have hs' : ∀ c ∈ s, ¬(c = ',' ∨ c = '\n') := fun c hc => hs c (by simp [hc])
    simp [parseUnquoted, ha.1, ha.2, ih hs']

/-- Unfolding of `parseQuoted` on a non-quote head, stated for an
arbitrary tail. -/
theorem parseQuoted_cons_ne (a : Char) (l : List Char) (ha : ¬(a = '"')) :
    parseQuoted (a :: l) = (parseQuoted l).map (fun p => (a :: p.1, p.2)) := by
  cases l <;> simp [parseQuoted, ha]

/-- Reading a quoted field body undoes the quote doubling and stops at
the closing quote, provided the suffix does not begin with a quote. -/
theorem parseQuoted_encode (s rest : List Char)
    (hrest : rest.head? ≠ some '"') :
    parseQuoted (escQuotes s ++ ('"' :: rest)) = some (s, rest) := by
  induction s with
  | nil =>
    cases rest with
    | nil => rfl
    | cons c r =>
      have hc : ¬(c = '"') := by
        intro h
        exact hrest (by simp [h])
      simp [escQuotes, parseQuoted, hc]
  | cons a s ih =>
    by_cases ha : a = '"'
    · subst ha
      simp [escQuotes, parseQuoted, ih]
    · simp [escQuotes, ha, parseQuoted_cons_ne a _ ha, ih]

/-- Reading one minimally-quoted field consumes exactly its encoding and
leaves the separator suffix intact. -/
theorem parseField_encode (f rest : List Char) (hrest : sepStart rest = true) :
    parseField (encodeField f ++ rest) = some (f, rest) := by
  have hhead : rest.head? ≠ some '"' := by
    cases rest with
    | nil => simp
    | cons c r =>
      have hc : c = ',' ∨ c = '\n' := by simpa [sepStart] using hrest
      simp only [List.head?_cons, ne_eq, Option.some.injEq]
      rintro rfl
      rcases hc with h | h <;> exact absurd h (by decide)
  by_cases hq : needsQuote f = true
  · rw [encodeField, if_pos hq]
    have hassoc : ('"' :: (escQuotes f ++ ['"'])) ++ rest
        = '"' :: (escQuotes f ++ ('"' :: rest)) := by simp
    rw [hassoc]
    simpa [parseField] using parseQuoted_encode f rest hhead
  · have hchars : ∀ c ∈ f, ¬(c = ',' ∨ c = '"' ∨ c = '\n' ∨ c = '\r') := by
      intro c hc h
      apply hq
      simp only [needsQuote, List.any_eq_true]
      refine ⟨c, hc, ?_⟩
      rcases h with h | h | h | h <;> simp [h]
    rw [encodeField, if_neg hq]
    cases f with
    | nil =>
      cases rest with
      | nil => rfl
      | cons c r =>
        have hc : c = ',' ∨ c = '\n' := by simpa [sepStart] using hrest
        have hcq : ¬(c = '"') := by
          rintro rfl
          rcases hc with h | h <;> exact absurd h (by decide)
        have hcomma : (c = ',' ∨ c = '\n') := hc
        simp only [List.nil_append, parseField, if_neg hcq]
        have : parseUnquoted (c :: r) = ([], c :: r) := by
          rcases hc with rfl | rfl <;> simp [parseUnquoted]
        simp [this]
    | cons a f' =>
      have haq : ¬(a = '"') := by
        intro h
        exact hchars a (by simp) (by simp [h])
      have hs : ∀ c ∈ a :: f', ¬(c = ',' ∨ c = '\n') := by
        intro c hc h
        apply hchars c hc
        rcases h with h | h
        · exact Or.inl h
        · exact Or.inr (Or.inr (Or.inl h))
      have hun := parseUnquoted_encode (a :: f') rest hs hrest
      simp only [List.cons_append] at hun ⊢
      simp [parseField, haq, hun]

/-- Reading one encoded record consumes exactly its newline-terminated
encoding and returns its fields, given fuel at least the field count. -/
theorem parseRecord_encode (fs : List (List Char)) (rest : List Char)
    (fuel : Nat) (hne : fs ≠ []) (hfuel : fs.length ≤ fuel) :
    parseRecord fuel (encodeRow fs ++ ('\n' :: rest)) = some (fs, rest) := by
  induction fs generalizing fuel with
  | nil => exact absurd rfl hne
  | cons f fs ih =>
    cases fuel with
    | zero => simp at hfuel
    | succ fuel =>
      cases fs with
      | nil =>
        simp only [encodeRow, parseRecord]
        rw [parseField_encode f ('\n' :: rest) (by simp [sepStart])]
        simp
      | cons g gs =>
        have hassoc : encodeRow (f :: g :: gs) ++ ('\n' :: rest)
            = encodeField f ++ (',' :: (encodeRow (g :: gs) ++ ('\n' :: rest))) := by
          simp [encodeRow]
        rw [hassoc]
        simp only [parseRecord]
        rw [parseField_encode f (',' :: (encodeRow (g :: gs) ++ ('\n' :: rest)))
          (by simp [sepStart])]
        have hlen : (g :: gs).length ≤ fuel := by
          simp only [List.length_cons] at hfuel ⊢
          omega
        have hih := ih fuel (by simp) hlen
        simp [hih]

/-- A record has at most one more field than its encoding has
characters (each field past the first contributes a delimiter). -/
theorem length_le_encodeRow (fs : List (List Char)) :
    fs.length ≤ (encodeRow fs).length + 1 := by
  induction fs with
  | nil => simp
  | cons f fs ih =>
    cases fs with
    | nil => simp [encodeRow]
    | cons g gs =>
      simp only [encodeRow, List.length_append, List.length_cons] at ih ⊢
      omega

/-- A table has at most as many records as its encoding has characters
(each record contributes its terminating newline). -/
theorem length_le_encodeTable (rows : List (List (List Char))) :
    rows.length ≤ (encodeTable rows).length := by
  induction rows with
  | nil => simp [encodeTable]
  | cons r rs ih =>
    simp only [encodeTable, List.length_append, List.length_cons]
    omega

/-- Unfolding of `parseRecords` at positive fuel on nonempty input. -/
theorem parseRecords_succ (fuel : Nat) (input : List Char) (h : input ≠ []) :
    parseRecords (fuel + 1) input =
      match parseRecord (input.length + 1) input with
      | none => none
      | some (r, rest) => (parseRecords fuel rest).map (fun rs => r :: rs) := by
  cases input with
  | nil => exact absurd rfl h
  | cons c input => rfl

/-- Reading back an encoded table returns exactly its records, given
fuel beyond the record count and no empty record. -/
theorem parseRecords_encode (rows : List (List (List Char))) (fuel : Nat)
    (hr : ∀ r ∈ rows, r ≠ []) (hfuel : rows.length < fuel) :
    parseRecords fuel (encodeTable rows) = some rows := by
  induction rows generalizing fuel with
  | nil =>
    cases fuel with
    | zero => omega
    | succ fuel => rfl
  | cons r rs ih =>
    cases fuel with
    | zero => omega
    | succ fuel =>
      have htab : encodeTable (r :: rs) = encodeRow r ++ ('\n' :: encodeTable rs) := rfl
      have hne : encodeRow r ++ ('\n' :: encodeTable rs) ≠ [] := by
        intro h
        have := congrArg List.length h
        simp at this
      rw [htab, parseRecords_succ fuel _ hne]
      have hbound : r.length ≤ (encodeRow r ++ ('\n' :: encodeTable rs)).length + 1 := by
        have h1 := length_le_encodeRow r
        simp only [List.length_append, List.length_cons]
        omega
      rw [parseRecord_encode r (encodeTable rs) _ (hr r (by simp)) hbound]
      have hih := ih fuel (fun x hx => hr x (List.mem_cons_of_mem _ hx)) (by
        simp only [List.length_cons] at hfuel
        omega)
      simp [hih]

/-- C7: exporting any table whose header is nonempty (every table of
this program has its fixed columns) to CSV and parsing the text back
yields the header row followed by exactly one record per row, every
field equal to the canonical rendering of the original cell — quoting
of delimiters, quotes, and line breaks included. -/
theorem to_csv_round_trip (df : DF) (hc : df.cols ≠ [])
    (hrows : ∀ r ∈ df.rows, r ≠ []) :
    parseCSV (toCsv df)
      = some ((df.cols.map String.data) :: df.rows.map rowFields) := by
  have hall : ∀ r ∈ (df.cols.map String.data) :: df.rows.map rowFields, r ≠ [] := by
    intro r hrr
    rcases List.mem_cons.mp hrr with rfl | hmem
    · simpa using hc
    · rcases List.mem_map.mp hmem with ⟨row, hrow, rfl⟩
      simpa [rowFields] using hrows row hrow
  have hlen : ((df.cols.map String.data) :: df.rows.map rowFields).length
      < (toCsv df).length + 1 := by
    have h1 := length_le_encodeTable
      ((df.cols.map String.data) :: df.rows.map rowFields)
    simp only [toCsv]
    omega
  exact parseRecords_encode _ _ hall hlen

/-- C7 witness: the round trip on `csvSample`, whose cells contain a
delimiter, a line break, and a quote character. -/
theorem to_csv_round_trip_witness :
    csvSample.cols ≠ [] ∧ (∀ r ∈ csvSample.rows, r ≠ []) ∧
    parseCSV (toCsv csvSample)
      = some ((csvSample.cols.map String.data) :: csvSample.rows.map rowFields) :=
  ⟨by decide, by decide, to_csv_round_trip csvSample (by decide) (by decide)⟩
